import Mathlib

/-!
# Habit tracker: progress/streak calculation engine, shallowly embedded

Source: `src/server/src/handlers/get_habit_progress.ts` (single-habit
endpoint), the list endpoint and write path in
`src/server/src/handlers/mark_habit_complete.ts`.

Timestamps are modelled at calendar-day granularity as `Int` epoch days
(days since 1970-01-01): every consumer of a completion timestamp in the
source first normalizes it to its calendar day (`toDateString`,
`toISOString().split('T')[0]`, `setHours(0,0,0,0)`, or a day-count
difference), so a day number carries exactly the information the
algorithms consume.  The wall-clock reference (`new Date()` in the
source) is threaded as an explicit `today` parameter.  JavaScript
`Math.floor(x / c)` with positive literal `c` is Lean's `Int` division
`/` (Euclidean division coincides with floor division for positive
divisors).
-/

/-- Proleptic-Gregorian epoch day of a civil date (the standard
`days_from_civil` computation); models the `Date` values that appear in
the source, `daysFromCivil y 1 1` being `new Date(y, 0, 1)`. -/
def daysFromCivil (y m d : Int) : Int :=
  let y2 := y - (if m ≤ 2 then 1 else 0)
  let era := y2 / 400
  let yoe := y2 - era * 400
  let doy := (153 * (m + (if m > 2 then -3 else 9)) + 2) / 5 + d - 1
  let doe := yoe * 365 + yoe / 4 - yoe / 100 + doy
  era * 146097 + doe - 719468

/-- Civil year containing epoch day `d` (models JS `Date#getFullYear`):
a 400-year-cycle approximation corrected by at most one year. -/
def getFullYear (d : Int) : Int :=
  let y := (400 * (d + 719468)) / 146097
  if d < daysFromCivil y 1 1 then y - 1
  else if d < daysFromCivil (y + 1) 1 1 then y
  else y + 1

/-- JS `Date#getDay`: 0 = Sunday, …, 6 = Saturday (epoch day 0,
1970-01-01, was a Thursday). -/
def getDayOfWeek (d : Int) : Int := (d + 4) % 7

/-- `getWeekNumber(date)` from get_habit_progress.ts: the year-relative
week index `Math.ceil((dayOfYear + startOfYear.getDay() + 1) / 7)`,
where `startOfYear` is January 1 of `date`'s own year.  For integers,
`Math.ceil(x / 7) = (x + 6) / 7` (floor division). -/
def getWeekNumber (d : Int) : Int :=
  let startOfYear := daysFromCivil (getFullYear d) 1 1
  let dayOfYear := d - startOfYear
  (dayOfYear + getDayOfWeek startOfYear + 1 + 6) / 7

/-- `completions.sort((a, b) => a - b)`: ascending sort. -/
def sortAsc (l : List Int) : List Int := l.insertionSort (· ≤ ·)

/-- `completions.sort((a, b) => b - a)`: descending sort. -/
def sortDesc (l : List Int) : List Int := l.insertionSort (· ≥ ·)

/-- The string-keyed weekday table `dayMap` of the source; looking up a
key outside the table yields JS `undefined`, modelled as `none`. -/
def dayMap (s : String) : Option Int :=
  if s = "sunday" then some 0
  else if s = "monday" then some 1
  else if s = "tuesday" then some 2
  else if s = "wednesday" then some 3
  else if s = "thursday" then some 4
  else if s = "friday" then some 5
  else if s = "saturday" then some 6
  else none

/-! ## Current streak (single-habit endpoint) -/

/-- Loop of `calculateDailyStreak`: `for (let i = 0; i <= completions.length; i++)`
walking back one day per iteration; a day with a completion increments the
streak, a miss breaks unless it is the very first iteration (`i = 0`,
recorded here by `first`).  `fuel` is the number of remaining iterations. -/
def dailyStreakGo (cs : List Int) : Nat → Bool → Int → Nat → Nat
  | 0, _, _, streak => streak
  | fuel + 1, first, currentDate, streak =>
    if currentDate ∈ cs then dailyStreakGo cs fuel false (currentDate - 1) (streak + 1)
    else if first then dailyStreakGo cs fuel false (currentDate - 1) streak
    else streak

/-- `calculateDailyStreak(completions)` anchored at `today`. -/
def calculateDailyStreak (cs : List Int) (today : Int) : Nat :=
  if cs = [] then 0 else dailyStreakGo cs (cs.length + 1) true today 0

/-- Loop of `calculateWeeklyStreak`: compares `uniqueWeeks[i]` with
`currentWeek - i`, carrying `expected = currentWeek - i`. -/
def weeklyWalk : List Int → Int → Nat → Nat
  | [], _, streak => streak
  | w :: rest, expected, streak =>
    if w = expected then weeklyWalk rest (expected - 1) (streak + 1) else streak

/-- `calculateWeeklyStreak(completions)` anchored at `today`:
`uniqueWeeks = [...new Set(weeks)].sort((a, b) => b - a)` then the walk
starting at `getWeekNumber(today)`. -/
def calculateWeeklyStreak (cs : List Int) (today : Int) : Nat :=
  if cs = [] then 0
  else weeklyWalk (sortDesc (cs.map getWeekNumber).dedup) (getWeekNumber today) 0

/-- The `while (currentDate.getDay() !== targetDay) currentDate -= 1 day`
search for the most recent target weekday on or before `today`; the
source loop takes at most 6 steps for a valid weekday, so fuel 7 is
exact. -/
def findAnchor : Nat → Int → Int → Int
  | 0, today, _ => today
  | fuel + 1, today, targetDay =>
    if getDayOfWeek today = targetDay then today
    else findAnchor fuel (today - 1) targetDay

/-- Loop of `calculateSpecificDayStreak`: compares `dayCompletions[i]`
with the expected date, stepping the expected date back 7 days on each
match. -/
def specificWalk : List Int → Int → Nat → Nat
  | [], _, streak => streak
  | c :: rest, expected, streak =>
    if c = expected then specificWalk rest (expected - 7) (streak + 1) else streak

/-- `calculateSpecificDayStreak(completions, dayName)` anchored at
`today`.  With an unknown `dayName` the JS lookup gives `undefined`, no
completion's weekday compares equal to it, and the function returns 0 at
the empty-filter check. -/
def calculateSpecificDayStreak (cs : List Int) (dayName : String) (today : Int) : Nat :=
  match dayMap dayName with
  | none => 0
  | some targetDay =>
    let dayCompletions := cs.filter (fun c => getDayOfWeek c = targetDay)
    if dayCompletions = [] then 0
    else specificWalk (sortDesc dayCompletions) (findAnchor 7 today targetDay) 0

/-- `calculateCurrentStreak(completions, frequency)` anchored at `today`. -/
def calculateCurrentStreak (cs : List Int) (frequency : String) (today : Int) : Nat :=
  if cs = [] then 0
  else
    let sortedCompletions := sortAsc cs
    if frequency = "daily" then calculateDailyStreak sortedCompletions today
    else if frequency = "weekly" then calculateWeeklyStreak sortedCompletions today
    else calculateSpecificDayStreak sortedCompletions frequency today

/-! ## Longest streak (single-habit endpoint) -/

/-- Loop of `calculateLongestDailyStreak` over the ascending-sorted
completions: day gap 1 extends the streak, gap 0 (same-day duplicate) is
skipped, any other gap resets the streak to 1. -/
def longestDailyScan : List Int → Int → Nat → Nat → Nat
  | [], _, _, maxStreak => maxStreak
  | c :: rest, lastDate, currentStreak, maxStreak =>
    if c - lastDate = 1 then
      longestDailyScan rest c (currentStreak + 1) (max maxStreak (currentStreak + 1))
    else if c - lastDate = 0 then longestDailyScan rest lastDate currentStreak maxStreak
    else longestDailyScan rest c 1 (max maxStreak 1)

/-- `calculateLongestDailyStreak(completions)`; the argument is the
ascending-sorted list, as in the source call site. -/
def calculateLongestDailyStreak (cs : List Int) : Nat :=
  match cs with
  | [] => 0
  | c :: rest => longestDailyScan rest c 1 1

/-- Loop shared by `calculateLongestWeeklyStreak` and
`calculateLongestSpecificDayStreak` over week numbers: week `lastWeek + 1`
extends the streak, anything else (including a repeated week) resets it
to 1. -/
def longestWeekScan : List Int → Int → Nat → Nat → Nat
  | [], _, _, maxStreak => maxStreak
  | w :: rest, lastWeek, currentStreak, maxStreak =>
    if w = lastWeek + 1 then
      longestWeekScan rest w (currentStreak + 1) (max maxStreak (currentStreak + 1))
    else longestWeekScan rest w 1 (max maxStreak 1)

/-- `calculateLongestWeeklyStreak(completions)`: de-duplicated week
numbers, ascending. -/
def calculateLongestWeeklyStreak (cs : List Int) : Nat :=
  match sortAsc (cs.map getWeekNumber).dedup with
  | [] => 0
  | w :: rest => longestWeekScan rest w 1 1

/-- `calculateLongestSpecificDayStreak(completions, dayName)`: filters to
the target weekday, sorts ascending, and scans the (not de-duplicated)
week numbers. -/
def calculateLongestSpecificDayStreak (cs : List Int) (dayName : String) : Nat :=
  match dayMap dayName with
  | none => 0
  | some targetDay =>
    match sortAsc (cs.filter (fun c => getDayOfWeek c = targetDay)) with
    | [] => 0
    | c :: rest => longestWeekScan (rest.map getWeekNumber) (getWeekNumber c) 1 1

/-- `calculateLongestStreak(completions, frequency)`. -/
def calculateLongestStreak (cs : List Int) (frequency : String) : Nat :=
  if cs = [] then 0
  else
    let sortedCompletions := sortAsc cs
    if frequency = "daily" then calculateLongestDailyStreak sortedCompletions
    else if frequency = "weekly" then calculateLongestWeeklyStreak sortedCompletions
    else calculateLongestSpecificDayStreak sortedCompletions frequency

/-! ## Completion rate (single-habit endpoint) -/

/-- The `while (currentDate <= now)` counting loop of
`calculateCompletionRate`'s specific-day branch: counts the days whose
weekday equals the target; with an `undefined` target nothing matches. -/
def countMatchingDays (targetDay : Option Int) (start : Int) : Nat → Nat
  | 0 => 0
  | n + 1 =>
    (if some (getDayOfWeek start) = targetDay then 1 else 0) +
      countMatchingDays targetDay (start + 1) n

/-- The `expectedCompletions` computed by `calculateCompletionRate`,
floored at 1 in every branch (`Math.max(_, 1)`). -/
def expectedCompletions (frequency : String) (createdAt today : Int) : Int :=
  if frequency = "daily" then max (today - createdAt + 1) 1
  else if frequency = "weekly" then max ((today - createdAt) / 7 + 1) 1
  else
    max (Int.ofNat (countMatchingDays (dayMap frequency) createdAt
      (today - createdAt + 1).toNat)) 1

/-- `calculateCompletionRate(completions, frequency, createdAt)`:
`Math.min(completions.length / expectedCompletions, 1)`, with an early 0
for an empty list.  The numerator is the raw record count. -/
def calculateCompletionRate (cs : List Int) (frequency : String) (createdAt today : Int) : ℚ :=
  if cs = [] then 0
  else min ((cs.length : ℚ) / (expectedCompletions frequency createdAt today : ℚ)) 1

/-! ## The single-habit progress record -/

/-- The `HabitProgress` output record (the pass-through `habit_id` field
is omitted). -/
@[ext]
structure HabitProgress where
  current_streak : Nat
  longest_streak : Nat
  last_completed_date : Option Int
  total_completions : Nat
  completion_rate : ℚ
  deriving Repr, DecidableEq

/-- `getHabitProgress`: the DB hands the handler the habit's completions
ordered by `completed_date DESC`; the handler derives the five statistics
from that list. -/
def getHabitProgress (frequency : String) (createdAt : Int) (cs : List Int) (today : Int) :
    HabitProgress :=
  let completions := sortDesc cs
  { current_streak :=
      if completions.length > 0 then calculateCurrentStreak completions frequency today else 0
    longest_streak := calculateLongestStreak completions frequency
    last_completed_date := completions.head?
    total_completions := completions.length
    completion_rate := calculateCompletionRate completions frequency createdAt today }

/-! ## List endpoint (`getHabitsWithProgress` in mark_habit_complete.ts):
its independently written current-streak computation -/

/-- The backward loop over `uniqueDates` (`for i = length-2 down to 0`):
counts while each next-older distinct day is exactly one day earlier. -/
def descConsecCount : List Int → Int → Nat
  | [], _ => 0
  | x :: rest, prev => if prev - x = 1 then 1 + descConsecCount rest x else 0

/-- The list endpoint's current streak: de-duplicated days sorted
ascending; the streak is counted only if the most recent day is within
one day of `today` (`daysSinceLastCompletion <= 1`). -/
def listCurrentStreak (cs : List Int) (today : Int) : Nat :=
  match (sortAsc cs.dedup).reverse with
  | [] => 0
  | mostRecent :: rest =>
    if today - mostRecent ≤ 1 then 1 + descConsecCount rest mostRecent else 0

/-! ## Write path: `markHabitComplete` -/

/-- The two storage tables the write path touches: habit ids, and
completion rows `(habit_id, completed_date)`. -/
structure DBState where
  habits : List Nat
  completions : List (Nat × Int)
  deriving Repr, DecidableEq

/-- `markHabitComplete(input)`: defaults the date to `now`
(`input.completed_date || new Date()`), errors if the habit is missing
or a completion for the same habit falls on the same calendar day, and
otherwise inserts exactly one row.  Returns the handler result together
with the resulting storage state. -/
def markHabitComplete (st : DBState) (habitId : Nat) (inputDate : Option Int) (now : Int) :
    Except String (Nat × Int) × DBState :=
  let completedDate := inputDate.getD now
  if habitId ∈ st.habits then
    if st.completions.any (fun c => c.1 == habitId && c.2 == completedDate) then
      (Except.error "Habit already completed for this date", st)
    else
      (Except.ok (habitId, completedDate),
        { st with completions := st.completions ++ [(habitId, completedDate)] })
  else (Except.error "Habit not found", st)

/-! ## Specification-side notions used to state the claims -/

/-- The run of consecutive completed days ending at `d`, examined over at
most `fuel` candidate days: counts while `d, d - 1, d - 2, …` are all
completion days. -/
def runLenFrom (cs : List Int) : Int → Nat → Nat
  | _, 0 => 0
  | d, fuel + 1 => if d ∈ cs then 1 + runLenFrom cs (d - 1) fuel else 0

/-- The length of the run of consecutive completed days ending at `d`.
`cs.length + 1` days suffice to exhaust any run (a run's days are
pairwise-distinct members of `cs`). -/
def runLength (cs : List Int) (d : Int) : Nat := runLenFrom cs d (cs.length + 1)

deriving instance DecidableEq for Except

/-! ## Sanity checks of the embedding on concrete dates -/

example : daysFromCivil 1970 1 1 = 0 := by decide
example : daysFromCivil 2025 1 1 = 20089 := by decide
example : getFullYear 20089 = 2025 := by decide
example : getFullYear 20088 = 2024 := by decide
example : getDayOfWeek (daysFromCivil 2025 1 1) = 3 := by decide
example : getWeekNumber (daysFromCivil 2024 12 25) = 52 := by decide
example : getWeekNumber (daysFromCivil 2025 1 1) = 1 := by decide
example : getWeekNumber (daysFromCivil 2025 1 8) = 2 := by decide

/-! ## Helper lemmas about the sorting wrappers -/

theorem sortAsc_perm (l : List Int) : List.Perm (sortAsc l) l := List.perm_insertionSort _ l

theorem sortDesc_perm (l : List Int) : List.Perm (sortDesc l) l := List.perm_insertionSort _ l

theorem sortAsc_sorted (l : List Int) : List.Sorted (· ≤ ·) (sortAsc l) :=
  List.sorted_insertionSort _ l

theorem sortDesc_sorted (l : List Int) : List.Sorted (· ≥ ·) (sortDesc l) :=
  List.sorted_insertionSort _ l

theorem sortAsc_eq_of_perm {l₁ l₂ : List Int} (h : List.Perm l₁ l₂) : sortAsc l₁ = sortAsc l₂ :=
  List.eq_of_perm_of_sorted ((sortAsc_perm l₁).trans (h.trans (sortAsc_perm l₂).symm))
    (sortAsc_sorted l₁) (sortAsc_sorted l₂)

theorem sortDesc_eq_of_perm {l₁ l₂ : List Int} (h : List.Perm l₁ l₂) : sortDesc l₁ = sortDesc l₂ :=
  List.eq_of_perm_of_sorted ((sortDesc_perm l₁).trans (h.trans (sortDesc_perm l₂).symm))
    (sortDesc_sorted l₁) (sortDesc_sorted l₂)

theorem mem_sortAsc {x : Int} {l : List Int} : x ∈ sortAsc l ↔ x ∈ l :=
  (sortAsc_perm l).mem_iff

theorem mem_sortDesc {x : Int} {l : List Int} : x ∈ sortDesc l ↔ x ∈ l :=
  (sortDesc_perm l).mem_iff

theorem length_sortAsc (l : List Int) : (sortAsc l).length = l.length :=
  (sortAsc_perm l).length_eq

theorem length_sortDesc (l : List Int) : (sortDesc l).length = l.length :=
  (sortDesc_perm l).length_eq

theorem sortAsc_eq_nil_iff {l : List Int} : sortAsc l = [] ↔ l = [] := by
  constructor
  · intro h
    have hp := sortAsc_perm l
    rw [h] at hp
    exact hp.symm.eq_nil
  · rintro rfl
    rfl

theorem sortDesc_eq_nil_iff {l : List Int} : sortDesc l = [] ↔ l = [] := by
  constructor
  · intro h
    have hp := sortDesc_perm l
    rw [h] at hp
    exact hp.symm.eq_nil
  · rintro rfl
    rfl

/-- The head of the descending-sorted copy of a list is its maximum. -/
theorem sortDesc_head_maximum (l : List Int) : (sortDesc l).head? = l.maximum := by
  rcases hd : sortDesc l with _ | ⟨a, t⟩
  · have : l = [] := sortDesc_eq_nil_iff.mp hd
    subst this
    rfl
  · have ha : a ∈ l := mem_sortDesc.mp (hd ▸ List.mem_cons_self a t)
    have hall : ∀ b ∈ l, b ≤ a := by
      intro b hb
      have hb' : b ∈ sortDesc l := mem_sortDesc.mpr hb
      rw [hd] at hb'
      rcases List.mem_cons.mp hb' with h | h
      · exact le_of_eq h
      · exact List.rel_of_sorted_cons (hd ▸ sortDesc_sorted l) b h
    rw [List.head?_cons, eq_comm]
    exact List.maximum_eq_coe_iff.mpr ⟨ha, hall⟩

theorem maximum_eq_of_perm {l₁ l₂ : List Int} (h : List.Perm l₁ l₂) :
    l₁.maximum = l₂.maximum := by
  rw [← sortDesc_head_maximum, ← sortDesc_head_maximum, sortDesc_eq_of_perm h]

theorem maximum_dedup (l : List Int) : l.dedup.maximum = l.maximum := by
  cases hm : l.maximum with
  | bot =>
    rw [List.maximum_eq_bot.mp hm]
    rfl
  | coe m =>
    have h := List.maximum_eq_coe_iff.mp hm
    exact List.maximum_eq_coe_iff.mpr
      ⟨List.mem_dedup.mpr h.1, fun b hb => h.2 b (List.mem_dedup.mp hb)⟩

/-! ## Claim theorems -/

/-- Claim C1 (code bug): the invariant `current_streak ≤ longest_streak`
fails for a specific-weekday habit whose run of completions crosses a
year boundary.  A Wednesday habit with completions 2024-12-25,
2025-01-01 and 2025-01-08, evaluated on 2025-01-08, yields
current_streak 3 but longest_streak 2: the current-streak walk steps
dates 7 apart, while the longest-streak scan compares year-relative week
indices, which reset in January (week 52 is followed by week 1, not 53). -/
theorem currentStreak_exceeds_longestStreak :
    (getHabitProgress "wednesday" (daysFromCivil 2024 12 1)
        [daysFromCivil 2024 12 25, daysFromCivil 2025 1 1, daysFromCivil 2025 1 8]
        (daysFromCivil 2025 1 8)).current_streak = 3 ∧
    (getHabitProgress "wednesday" (daysFromCivil 2024 12 1)
        [daysFromCivil 2024 12 25, daysFromCivil 2025 1 1, daysFromCivil 2025 1 8]
        (daysFromCivil 2025 1 8)).longest_streak = 2 ∧
    ¬ ((getHabitProgress "wednesday" (daysFromCivil 2024 12 1)
        [daysFromCivil 2024 12 25, daysFromCivil 2025 1 1, daysFromCivil 2025 1 8]
        (daysFromCivil 2025 1 8)).current_streak ≤
      (getHabitProgress "wednesday" (daysFromCivil 2024 12 1)
        [daysFromCivil 2024 12 25, daysFromCivil 2025 1 1, daysFromCivil 2025 1 8]
        (daysFromCivil 2025 1 8)).longest_streak) := by
  refine ⟨by decide, by decide, by decide⟩

/-- Claim C6: several completion events on the same calendar day collapse
to a single period for streak math while every record still counts in
`total_completions`: a daily habit whose completions are three events
dated today yields total_completions 3, current_streak 1 and
longest_streak 1. -/
theorem sameDayDuplicates_collapse :
    (getHabitProgress "daily" (daysFromCivil 2025 6 1)
        [daysFromCivil 2025 6 11, daysFromCivil 2025 6 11, daysFromCivil 2025 6 11]
        (daysFromCivil 2025 6 11)).total_completions = 3 ∧
    (getHabitProgress "daily" (daysFromCivil 2025 6 1)
        [daysFromCivil 2025 6 11, daysFromCivil 2025 6 11, daysFromCivil 2025 6 11]
        (daysFromCivil 2025 6 11)).current_streak = 1 ∧
    (getHabitProgress "daily" (daysFromCivil 2025 6 1)
        [daysFromCivil 2025 6 11, daysFromCivil 2025 6 11, daysFromCivil 2025 6 11]
        (daysFromCivil 2025 6 11)).longest_streak = 1 := by
  refine ⟨by decide, by decide, by decide⟩

/-- Claim C9: `markHabitComplete` errors exactly when the habit does not
exist or some existing completion of that habit falls on the same
calendar day as the requested date (the input date defaulting to `now`);
on error the storage state is unchanged, and on success exactly the one
row `(habit_id, requested date)` is appended. -/
theorem markHabitComplete_rejects_duplicates (st : DBState) (habitId : Nat)
    (inputDate : Option Int) (now : Int) :
    ((∃ e, (markHabitComplete st habitId inputDate now).1 = Except.error e) ↔
      habitId ∉ st.habits ∨
        ∃ c ∈ st.completions, c.1 = habitId ∧ c.2 = inputDate.getD now) ∧
    ((∃ e, (markHabitComplete st habitId inputDate now).1 = Except.error e) →
      (markHabitComplete st habitId inputDate now).2 = st) ∧
    (∀ v, (markHabitComplete st habitId inputDate now).1 = Except.ok v →
      v = (habitId, inputDate.getD now) ∧
      (markHabitComplete st habitId inputDate now).2.habits = st.habits ∧
      (markHabitComplete st habitId inputDate now).2.completions =
        st.completions ++ [(habitId, inputDate.getD now)]) := by
  simp only [markHabitComplete]
  split_ifs with h1 h2
  · simp only [List.any_eq_true, Bool.and_eq_true, beq_iff_eq] at h2
    refine ⟨⟨fun _ => Or.inr (by simpa using h2), fun _ => ⟨_, rfl⟩⟩, fun _ => rfl, ?_⟩
    intro v hv
    exact absurd hv (by simp)
  · simp only [List.any_eq_true, Bool.and_eq_true, beq_iff_eq] at h2
    constructor
    · constructor
      · rintro ⟨e, he⟩
        exact absurd he (by simp)
      · rintro (h | hc)
        · exact absurd h1 h
        · exact absurd hc h2
    · refine ⟨?_, ?_⟩
      · rintro ⟨e, he⟩
        exact absurd he (by simp)
      · intro v hv
        refine ⟨by simpa using hv.symm, rfl, rfl⟩
  · refine ⟨⟨fun _ => Or.inl h1, fun _ => ⟨_, rfl⟩⟩, fun _ => rfl, ?_⟩
    intro v hv
    exact absurd hv (by simp)

/-- Witness for C9 at a concrete state: habit 1 with an existing
completion on day 5.  Writing day 5 again is rejected with the state
unchanged, and writing day 6 succeeds. -/
theorem markHabitComplete_rejects_duplicates_witness :
    (∃ e, (markHabitComplete ⟨[1], [(1, 5)]⟩ 1 (some 5) 9).1 = Except.error e) ∧
    (markHabitComplete ⟨[1], [(1, 5)]⟩ 1 (some 5) 9).2 = ⟨[1], [(1, 5)]⟩ ∧
    (markHabitComplete ⟨[1], [(1, 5)]⟩ 1 (some 6) 9).2.completions = [(1, 5), (1, 6)] := by
  have h5 := markHabitComplete_rejects_duplicates ⟨[1], [(1, 5)]⟩ 1 (some 5) 9
  have h6 := markHabitComplete_rejects_duplicates ⟨[1], [(1, 5)]⟩ 1 (some 6) 9
  have he : ∃ e, (markHabitComplete ⟨[1], [(1, 5)]⟩ 1 (some 5) 9).1 = Except.error e :=
    h5.1.mpr (Or.inr ⟨(1, 5), by decide, rfl, rfl⟩)
  refine ⟨he, h5.2.1 he, ?_⟩
  exact ((h6.2.2 (1, 6) (by decide)).2.2).trans (by decide)

/-- Claim C4: `expected_completions` is floored at 1 (so the division is
always defined); for a non-empty completion list the rate is
`min(length / expected, 1)` with the raw record count (duplicates
included) as numerator; and the rate always lies in `[0, 1]`. -/
theorem completionRate_formula (cs : List Int) (frequency : String) (createdAt today : Int) :
    1 ≤ expectedCompletions frequency createdAt today ∧
    (cs ≠ [] → calculateCompletionRate cs frequency createdAt today =
      min ((cs.length : ℚ) / (expectedCompletions frequency createdAt today : ℚ)) 1) ∧
    0 ≤ calculateCompletionRate cs frequency createdAt today ∧
    calculateCompletionRate cs frequency createdAt today ≤ 1 := by
  have hexp : 1 ≤ expectedCompletions frequency createdAt today := by
    unfold expectedCompletions
    split_ifs <;> exact le_max_right _ _
  refine ⟨hexp, fun h => by rw [calculateCompletionRate, if_neg h], ?_, ?_⟩
  · unfold calculateCompletionRate
    split_ifs with h
    · exact le_refl 0
    · refine le_min (div_nonneg (by positivity) ?_) zero_le_one
      have : (1 : ℚ) ≤ (expectedCompletions frequency createdAt today : ℚ) := by
        exact_mod_cast hexp
      linarith
  · unfold calculateCompletionRate
    split_ifs with h
    · exact zero_le_one
    · exact min_le_right _ _

/-- Witness for C4: a daily habit created on day 3, evaluated on day 5,
with a single completion. -/
theorem completionRate_formula_witness :
    1 ≤ expectedCompletions "daily" 3 5 ∧
    (([5] : List Int) ≠ [] → calculateCompletionRate [5] "daily" 3 5 =
      min (((5 : Int) :: []).length / (expectedCompletions "daily" 3 5 : ℚ)) 1) ∧
    0 ≤ calculateCompletionRate [5] "daily" 3 5 ∧
    calculateCompletionRate [5] "daily" 3 5 ≤ 1 :=
  completionRate_formula [5] "daily" 3 5

/-- Claim C8: the progress computation is invariant under permutations of
the completion list (all five fields), and `last_completed_date` is the
maximum completion date. -/
theorem progress_permutation_invariant (frequency : String) (createdAt today : Int)
    (cs cs' : List Int) (hp : List.Perm cs cs') :
    getHabitProgress frequency createdAt cs today =
      getHabitProgress frequency createdAt cs' today ∧
    (getHabitProgress frequency createdAt cs today).last_completed_date = cs.maximum := by
  constructor
  · unfold getHabitProgress
    rw [sortDesc_eq_of_perm hp]
  · show (sortDesc cs).head? = cs.maximum
    exact sortDesc_head_maximum cs

/-- Witness for C8: the two orderings of the completion days 1 and 2
produce the same record, whose last completed date is day 2. -/
theorem progress_permutation_invariant_witness :
    getHabitProgress "daily" 0 [1, 2] 5 = getHabitProgress "daily" 0 [2, 1] 5 ∧
    (getHabitProgress "daily" 0 [1, 2] 5).last_completed_date = ([1, 2] : List Int).maximum :=
  progress_permutation_invariant "daily" 0 5 [1, 2] [2, 1] (List.Perm.swap 2 1 [])

/-! ## Claim C3: behavior on frequencies outside the closed set -/

theorem countMatchingDays_none (n : Nat) : ∀ start, countMatchingDays none start n = 0 := by
  induction n with
  | zero => intro start; rfl
  | succ k ih => intro start; simp [countMatchingDays, ih]

/-- Claim C3 counterexample: with the out-of-set frequency "biweekly", a
habit created on day 0 with one completion on day 5, evaluated on day
10, the progress computation does not fail: it returns an ordinary
record with zero streaks and completion rate 1. -/
theorem unknownFrequency_returns_ordinary_record :
    getHabitProgress "biweekly" 0 [5] 10 =
      { current_streak := 0, longest_streak := 0, last_completed_date := some 5,
        total_completions := 1, completion_rate := 1 } := by
  refine HabitProgress.ext ?_ ?_ ?_ ?_ ?_
  · decide
  · decide
  · decide
  · decide
  · show calculateCompletionRate (sortDesc [5]) "biweekly" 0 10 = 1
    have he : expectedCompletions "biweekly" 0 10 = 1 := by decide
    have hl : (sortDesc [5]).length = 1 := by decide
    rw [calculateCompletionRate, if_neg (by decide), he, hl]
    norm_num

/-- Claim C3 (corrected): a frequency outside the closed set is treated
silently as a specific-day frequency whose weekday table lookup is
`undefined`: no completion ever matches, both streaks are 0, the
expected count is floored to 1, and for a non-empty completion list the
rate is `min(total, 1)`.  No error is signalled. -/
theorem unknownFrequency_silently_defaults (frequency : String) (createdAt today : Int)
    (cs : List Int) (hd : frequency ≠ "daily") (hw : frequency ≠ "weekly")
    (hmap : dayMap frequency = none) :
    (getHabitProgress frequency createdAt cs today).current_streak = 0 ∧
    (getHabitProgress frequency createdAt cs today).longest_streak = 0 ∧
    (cs ≠ [] →
      (getHabitProgress frequency createdAt cs today).completion_rate =
        min ((cs.length : ℚ)) 1) := by
  refine ⟨?_, ?_, ?_⟩
  · show (if (sortDesc cs).length > 0 then calculateCurrentStreak (sortDesc cs) frequency today
      else 0) = 0
    split_ifs with h
    · simp [calculateCurrentStreak, calculateSpecificDayStreak, hd, hw, hmap]
    · rfl
  · show calculateLongestStreak (sortDesc cs) frequency = 0
    simp [calculateLongestStreak, calculateLongestSpecificDayStreak, hd, hw, hmap]
  · intro h
    show calculateCompletionRate (sortDesc cs) frequency createdAt today = _
    have hs : sortDesc cs ≠ [] := fun hh => h (sortDesc_eq_nil_iff.mp hh)
    have he : expectedCompletions frequency createdAt today = 1 := by
      rw [expectedCompletions, if_neg hd, if_neg hw, hmap]
      simp [countMatchingDays_none]
    rw [calculateCompletionRate, if_neg hs, he, length_sortDesc]
    norm_num

/-- Witness for the corrected C3 at the concrete frequency "biweekly". -/
theorem unknownFrequency_silently_defaults_witness :
    (getHabitProgress "biweekly" 0 [5] 10).current_streak = 0 ∧
    (getHabitProgress "biweekly" 0 [5] 10).longest_streak = 0 ∧
    (([5] : List Int) ≠ [] →
      (getHabitProgress "biweekly" 0 [5] 10).completion_rate =
        min ((([5] : List Int).length : ℚ)) 1) :=
  unknownFrequency_silently_defaults "biweekly" 0 10 [5] (by decide) (by decide) (by decide)

/-! ## Claim C2: anchoring of the weekly and specific-weekday current
streak walks -/

theorem weeklyWalk_ge (l : List Int) : ∀ expected streak, streak ≤ weeklyWalk l expected streak := by
  induction l with
  | nil => intro e s; exact le_refl s
  | cons w rest ih =>
    intro e s
    rw [weeklyWalk]
    split_ifs
    · exact le_trans (Nat.le_succ s) (ih (e - 1) (s + 1))
    · exact le_refl s

theorem specificWalk_ge (l : List Int) :
    ∀ expected streak, streak ≤ specificWalk l expected streak := by
  induction l with
  | nil => intro e s; exact le_refl s
  | cons c rest ih =>
    intro e s
    rw [specificWalk]
    split_ifs
    · exact le_trans (Nat.le_succ s) (ih (e - 7) (s + 1))
    · exact le_refl s

theorem dayMap_ne_reserved {dn : String} {t : Int} (h : dayMap dn = some t) :
    dn ≠ "daily" ∧ dn ≠ "weekly" := by
  constructor
  · rintro rfl
    rw [show dayMap "daily" = none from by decide] at h
    exact Option.noConfusion h
  · rintro rfl
    rw [show dayMap "weekly" = none from by decide] at h
    exact Option.noConfusion h

theorem calculateCurrentStreak_daily (cs : List Int) (today : Int) (h : cs ≠ []) :
    calculateCurrentStreak cs "daily" today = calculateDailyStreak (sortAsc cs) today := by
  simp [calculateCurrentStreak, h]

theorem calculateCurrentStreak_weekly (cs : List Int) (today : Int) (h : cs ≠ []) :
    calculateCurrentStreak cs "weekly" today = calculateWeeklyStreak (sortAsc cs) today := by
  simp [calculateCurrentStreak, h]

theorem calculateCurrentStreak_specific (cs : List Int) (dayName : String) (today : Int)
    (h : cs ≠ []) (hd : dayName ≠ "daily") (hw : dayName ≠ "weekly") :
    calculateCurrentStreak cs dayName today = calculateSpecificDayStreak (sortAsc cs) dayName today := by
  simp [calculateCurrentStreak, h, hd, hw]

/-- The weekly current streak is positive exactly when the largest week
index among the completions is today's week index. -/
theorem calculateWeeklyStreak_pos_iff (cs : List Int) (today : Int) (h : cs ≠ []) :
    1 ≤ calculateWeeklyStreak cs today ↔
      (cs.map getWeekNumber).maximum = some (getWeekNumber today) := by
  rw [calculateWeeklyStreak, if_neg h]
  rcases hW : sortDesc (cs.map getWeekNumber).dedup with _ | ⟨w, rest⟩
  · exfalso
    have h1 := sortDesc_eq_nil_iff.mp hW
    have h2 := (List.dedup_eq_nil _).mp h1
    exact h (List.map_eq_nil_iff.mp h2)
  · have hmax : (cs.map getWeekNumber).maximum = some w := by
      have h1 := sortDesc_head_maximum (cs.map getWeekNumber).dedup
      rw [hW, List.head?_cons] at h1
      rw [← maximum_dedup]
      exact h1.symm
    rw [weeklyWalk]
    split_ifs with hcond
    · constructor
      · intro _
        rw [hmax, hcond]
      · intro _
        exact le_trans (by norm_num) (weeklyWalk_ge rest _ 1)
    · constructor
      · intro habs
        exact absurd (le_refl 0) (by omega)
      · intro hr
        rw [hmax] at hr
        exact absurd (Option.some.inj hr) hcond

/-- The specific-weekday current streak is positive exactly when the
most recent eligible completion date equals the anchor (the most recent
target-weekday date on or before today). -/
theorem calculateSpecificDayStreak_pos_iff (cs : List Int) (dayName : String)
    (targetDay today : Int) (hdm : dayMap dayName = some targetDay) :
    1 ≤ calculateSpecificDayStreak cs dayName today ↔
      (cs.filter (fun c => getDayOfWeek c = targetDay)).maximum =
        some (findAnchor 7 today targetDay) := by
  simp only [calculateSpecificDayStreak, hdm]
  by_cases hF : cs.filter (fun c => getDayOfWeek c = targetDay) = []
  · rw [if_pos hF, hF]
    exact iff_of_false (by omega) (fun habs => Option.noConfusion habs)
  · rw [if_neg hF]
    rcases hS : sortDesc (cs.filter (fun c => getDayOfWeek c = targetDay)) with _ | ⟨e, rest⟩
    · exact absurd (sortDesc_eq_nil_iff.mp hS) hF
    · have hmax : (cs.filter (fun c => getDayOfWeek c = targetDay)).maximum = some e := by
        have h1 := sortDesc_head_maximum (cs.filter (fun c => getDayOfWeek c = targetDay))
        rw [hS, List.head?_cons] at h1
        exact h1.symm
      rw [specificWalk]
      split_ifs with hcond
      · refine iff_of_true (le_trans (by norm_num) (specificWalk_ge rest _ 1)) ?_
        rw [hmax, hcond]
      · refine iff_of_false (by omega) (fun hr => hcond (Option.some.inj (hmax.symm.trans hr)))

/-- Claim C2 (corrected): for Weekly and SpecificWeekday frequencies the
current-streak walk is anchored at the period containing now — today's
week index, resp. the most recent target-weekday date on or before
today — not at the most recent completed period: the streak is positive
iff that anchor period itself is completed (for weekly, iff the maximum
completion week index equals today's week index), so eligible
completions that are all older than the anchor period yield
current_streak = 0 rather than ≥ 1. -/
theorem currentStreak_anchored_at_now (cs : List Int) (today : Int) (hne : cs ≠ []) :
    (1 ≤ calculateCurrentStreak cs "weekly" today ↔
      (cs.map getWeekNumber).maximum = some (getWeekNumber today)) ∧
    (∀ dayName targetDay, dayMap dayName = some targetDay →
      (1 ≤ calculateCurrentStreak cs dayName today ↔
        (cs.filter (fun c => getDayOfWeek c = targetDay)).maximum =
          some (findAnchor 7 today targetDay))) := by
  constructor
  · rw [calculateCurrentStreak_weekly cs today hne,
      calculateWeeklyStreak_pos_iff _ _ (fun hh => hne (sortAsc_eq_nil_iff.mp hh)),
      maximum_eq_of_perm ((sortAsc_perm cs).map getWeekNumber)]
  · intro dayName targetDay hdm
    obtain ⟨hd, hw⟩ := dayMap_ne_reserved hdm
    rw [calculateCurrentStreak_specific cs dayName today hne hd hw,
      calculateSpecificDayStreak_pos_iff _ _ _ _ hdm,
      maximum_eq_of_perm ((sortAsc_perm cs).filter _)]

/-- Claim C2 counterexample: a weekly habit with one (eligible)
completion in the previous week and none in the current week has
current_streak 0, not ≥ 1: the walk starts at today's week, not at the
most recent completed week. -/
theorem weekly_eligible_completion_zero_streak :
    ([daysFromCivil 2025 6 4] : List Int) ≠ [] ∧
    calculateCurrentStreak [daysFromCivil 2025 6 4] "weekly" (daysFromCivil 2025 6 11) = 0 :=
  ⟨by decide, by decide⟩

/-- Witness for the corrected C2: with a completion today (2025-06-11, a
Wednesday), both the weekly walk and the "wednesday" walk are anchored
at a completed period and give a positive streak. -/
theorem currentStreak_anchored_at_now_witness :
    1 ≤ calculateCurrentStreak [daysFromCivil 2025 6 11] "weekly" (daysFromCivil 2025 6 11) ∧
    1 ≤ calculateCurrentStreak [daysFromCivil 2025 6 11] "wednesday" (daysFromCivil 2025 6 11) := by
  have h := currentStreak_anchored_at_now [daysFromCivil 2025 6 11] (daysFromCivil 2025 6 11)
    (by decide)
  exact ⟨h.1.mpr (by decide), (h.2 "wednesday" 3 (by decide)).mpr (by decide)⟩

/-! ## Run-length machinery for the daily current-streak claims -/

theorem runLenFrom_mem (cs : List Int) :
    ∀ (fuel : Nat) (d : Int) (j : Nat), j < runLenFrom cs d fuel → (d - (j : Int)) ∈ cs := by
  intro fuel
  induction fuel with
  | zero =>
    intro d j h
    rw [runLenFrom] at h
    omega
  | succ k ih =>
    intro d j h
    rw [runLenFrom] at h
    by_cases hd : d ∈ cs
    · rw [if_pos hd] at h
      cases j with
      | zero => simpa using hd
      | succ i =>
        have hmem := ih (d - 1) i (by omega)
        have heq : d - 1 - (i : Int) = d - ((i + 1 : Nat) : Int) := by push_cast; ring
        exact heq ▸ hmem
    · rw [if_neg hd] at h
      omega

theorem runLenFrom_le_card (cs : List Int) (d : Int) (fuel : Nat) :
    runLenFrom cs d fuel ≤ (cs.toFinset.filter (fun x => x ≤ d)).card := by
  have hmaps : ∀ j ∈ Finset.range (runLenFrom cs d fuel),
      d - (j : Int) ∈ cs.toFinset.filter (fun x => x ≤ d) := by
    intro j hj
    rw [Finset.mem_filter, List.mem_toFinset]
    exact ⟨runLenFrom_mem cs fuel d j (Finset.mem_range.mp hj), by omega⟩
  have hinj : Set.InjOn (fun j : Nat => d - (j : Int)) (Finset.range (runLenFrom cs d fuel)) := by
    intro a _ b _ hab
    simp only at hab
    omega
  have := Finset.card_le_card_of_injOn (fun j : Nat => d - (j : Int)) hmaps hinj
  simpa using this

theorem card_filter_le_pred (cs : List Int) (d : Int) (hd : d ∈ cs) :
    (cs.toFinset.filter (fun x => x ≤ d - 1)).card + 1 ≤
      (cs.toFinset.filter (fun x => x ≤ d)).card := by
  have h2 : d ∉ cs.toFinset.filter (fun x => x ≤ d - 1) := by
    rw [Finset.mem_filter]
    push_neg
    intro _
    omega
  have h1 : insert d (cs.toFinset.filter (fun x => x ≤ d - 1)) ⊆
      cs.toFinset.filter (fun x => x ≤ d) := by
    intro x hx
    rcases Finset.mem_insert.mp hx with rfl | hx
    · rw [Finset.mem_filter, List.mem_toFinset]
      exact ⟨hd, le_refl x⟩
    · rw [Finset.mem_filter] at hx ⊢
      exact ⟨hx.1, by omega⟩
  calc (cs.toFinset.filter (fun x => x ≤ d - 1)).card + 1
      = (insert d (cs.toFinset.filter (fun x => x ≤ d - 1))).card :=
        (Finset.card_insert_of_not_mem h2).symm
    _ ≤ (cs.toFinset.filter (fun x => x ≤ d)).card := Finset.card_le_card h1

theorem runLenFrom_fuel_succ (cs : List Int) :
    ∀ (fuel : Nat) (d : Int), (cs.toFinset.filter (fun x => x ≤ d)).card ≤ fuel →
      runLenFrom cs d (fuel + 1) = runLenFrom cs d fuel := by
  intro fuel
  induction fuel with
  | zero =>
    intro d hcard
    by_cases hd : d ∈ cs
    · exfalso
      have hmem : d ∈ cs.toFinset.filter (fun x => x ≤ d) := by
        rw [Finset.mem_filter, List.mem_toFinset]
        exact ⟨hd, le_refl d⟩
      have := Finset.card_pos.mpr ⟨d, hmem⟩
      omega
    · simp only [runLenFrom, if_neg hd]
  | succ k ih =>
    intro d hcard
    by_cases hd : d ∈ cs
    · have h1 : runLenFrom cs d (k + 1 + 1) = 1 + runLenFrom cs (d - 1) (k + 1) := by
        rw [runLenFrom, if_pos hd]
      have h2 : runLenFrom cs d (k + 1) = 1 + runLenFrom cs (d - 1) k := by
        rw [runLenFrom, if_pos hd]
      rw [h1, h2, ih (d - 1) (by have := card_filter_le_pred cs d hd; omega)]
    · have h1 : runLenFrom cs d (k + 1 + 1) = 0 := by rw [runLenFrom, if_neg hd]
      have h2 : runLenFrom cs d (k + 1) = 0 := by rw [runLenFrom, if_neg hd]
      rw [h1, h2]

theorem runLenFrom_fuel_eq (cs : List Int) (d : Int) {f g : Nat}
    (hf : (cs.toFinset.filter (fun x => x ≤ d)).card ≤ f) (hfg : f ≤ g) :
    runLenFrom cs d f = runLenFrom cs d g := by
  induction g with
  | zero =>
    have : f = 0 := by omega
    rw [this]
  | succ k ih =>
    by_cases hk : f = k + 1
    · rw [hk]
    · have hf' : f ≤ k := by omega
      rw [runLenFrom_fuel_succ cs k d (le_trans hf hf')]
      exact ih hf'

theorem runLenFrom_congr {l₁ l₂ : List Int} :
    ∀ (fuel : Nat) (d : Int), (∀ x : Int, x ≤ d → (x ∈ l₁ ↔ x ∈ l₂)) →
      runLenFrom l₁ d fuel = runLenFrom l₂ d fuel := by
  intro fuel
  induction fuel with
  | zero => intro d _; rfl
  | succ k ih =>
    intro d hmem
    rw [runLenFrom, runLenFrom]
    by_cases hd : d ∈ l₁
    · rw [if_pos hd, if_pos ((hmem d (le_refl d)).mp hd),
        ih (d - 1) (fun x hx => hmem x (by omega))]
    · rw [if_neg hd, if_neg (fun hc => hd ((hmem d (le_refl d)).mpr hc))]

theorem dailyStreakGo_false (cs : List Int) :
    ∀ (fuel : Nat) (cur : Int) (s : Nat),
      dailyStreakGo cs fuel false cur s = s + runLenFrom cs cur fuel := by
  intro fuel
  induction fuel with
  | zero => intro cur s; rfl
  | succ k ih =>
    intro cur s
    rw [dailyStreakGo, runLenFrom]
    by_cases hd : cur ∈ cs
    · rw [if_pos hd, if_pos hd, ih (cur - 1) (s + 1)]
      omega
    · rw [if_neg hd, if_neg hd, if_neg Bool.false_ne_true]
      omega

/-! ## Claim C5: the one-day grace rule of the daily current streak -/

theorem calculateDailyStreak_spec (cs : List Int) (today m : Int) (hmax : cs.maximum = some m) :
    (m = today ∨ m = today - 1 → calculateDailyStreak cs today = runLength cs m) ∧
    (m < today - 1 → calculateDailyStreak cs today = 0) := by
  obtain ⟨hmem, hub⟩ := List.maximum_eq_coe_iff.mp hmax
  have hne : cs ≠ [] := List.ne_nil_of_mem hmem
  constructor
  · intro hcase
    rw [calculateDailyStreak, if_neg hne]
    rcases hcase with hc | hc
    · have hm' : today ∈ cs := hc ▸ hmem
      have h1 : dailyStreakGo cs (cs.length + 1) true today 0 =
          1 + runLenFrom cs (today - 1) cs.length := by
        rw [dailyStreakGo, if_pos hm', dailyStreakGo_false]
      rw [h1, runLength, hc, runLenFrom, if_pos hm']
    · have ht : today ∉ cs := fun hc2 => by have := hub today hc2; omega
      have h1 : dailyStreakGo cs (cs.length + 1) true today 0 =
          runLenFrom cs (today - 1) cs.length := by
        rw [dailyStreakGo, if_neg ht, if_pos rfl, dailyStreakGo_false]
        omega
      rw [h1, runLength, hc]
      exact runLenFrom_fuel_eq cs (today - 1)
        (le_trans (Finset.card_filter_le _ _) (List.toFinset_card_le cs)) (Nat.le_succ _)
  · intro hlt
    have ht : today ∉ cs := fun hc2 => by have := hub _ hc2; omega
    have ht1 : today - 1 ∉ cs := fun hc2 => by have := hub _ hc2; omega
    rw [calculateDailyStreak, if_neg hne, dailyStreakGo, if_neg ht, if_pos rfl,
      dailyStreakGo_false]
    obtain ⟨k, hk⟩ : ∃ k, cs.length = k + 1 := by
      cases cs with
      | nil => exact absurd rfl hne
      | cons a t => exact ⟨t.length, rfl⟩
    rw [hk, runLenFrom, if_neg ht1]

theorem currentStreakDaily_spec (cs : List Int) (today m : Int) (hmax : cs.maximum = some m) :
    (m = today ∨ m = today - 1 → calculateCurrentStreak cs "daily" today = runLength cs m) ∧
    (m < today - 1 → calculateCurrentStreak cs "daily" today = 0) := by
  have hne : cs ≠ [] := List.ne_nil_of_mem (List.maximum_eq_coe_iff.mp hmax).1
  have hmax' : (sortAsc cs).maximum = some m := by
    rw [maximum_eq_of_perm (sortAsc_perm cs)]
    exact hmax
  have hspec := calculateDailyStreak_spec (sortAsc cs) today m hmax'
  have hrun : runLength (sortAsc cs) m = runLength cs m := by
    rw [runLength, runLength, length_sortAsc]
    exact runLenFrom_congr _ _ (fun x _ => mem_sortAsc)
  rw [calculateCurrentStreak_daily cs today hne]
  exact ⟨fun h => (hspec.1 h).trans hrun, hspec.2⟩

/-- Claim C5: for a Daily habit the current streak obeys the one-day
grace rule: if the most recent distinct completion day `m` is today or
yesterday, current_streak is the length of the run of consecutive
completed days ending at `m`; if `m` is strictly before yesterday,
current_streak is 0. -/
theorem daily_grace_rule (cs : List Int) (today m : Int) (hmax : cs.maximum = some m) :
    (m = today ∨ m = today - 1 → calculateCurrentStreak cs "daily" today = runLength cs m) ∧
    (m < today - 1 → calculateCurrentStreak cs "daily" today = 0) :=
  currentStreakDaily_spec cs today m hmax

/-- Witness for C5: completions on days 98 and 99.  With today = 100 the
most recent completion is yesterday and the streak is the full run
length; with today = 102 the same history gives 0. -/
theorem daily_grace_rule_witness :
    calculateCurrentStreak [98, 99] "daily" 100 = runLength [98, 99] 99 ∧
    calculateCurrentStreak [98, 99] "daily" 102 = 0 :=
  ⟨(daily_grace_rule [98, 99] 100 99 (by decide)).1 (Or.inr (by decide)),
   (daily_grace_rule [98, 99] 102 99 (by decide)).2 (by decide)⟩

/-! ## Claim C7: comparing the two current-streak implementations -/

theorem reverse_sortAsc_sorted_ge (l : List Int) :
    List.Sorted (· ≥ ·) ((sortAsc l).reverse) :=
  List.pairwise_reverse.mpr ((sortAsc_sorted l).imp fun h => h)

theorem reverse_sortAsc_dedup_sorted_gt (l : List Int) :
    List.Sorted (· > ·) ((sortAsc l.dedup).reverse) := by
  have hge := reverse_sortAsc_sorted_ge l.dedup
  have hnd : ((sortAsc l.dedup).reverse).Nodup :=
    List.nodup_reverse.mpr ((sortAsc_perm l.dedup).nodup_iff.mpr (List.nodup_dedup l))
  exact ((hge.and hnd).imp fun hab => lt_of_le_of_ne hab.1 (Ne.symm hab.2))

theorem head_maximum_of_sorted_ge {l l0 : List Int} (hs : List.Sorted (· ≥ ·) l)
    (hmem : ∀ x : Int, x ∈ l ↔ x ∈ l0) : l.head? = l0.maximum := by
  cases l with
  | nil =>
    have h0 : l0 = [] := by
      cases l0 with
      | nil => rfl
      | cons a t => exact absurd ((hmem a).mpr (List.mem_cons_self a t)) (by simp)
    rw [h0]
    rfl
  | cons a t =>
    rw [List.head?_cons, eq_comm]
    refine List.maximum_eq_coe_iff.mpr ⟨(hmem a).mp (List.mem_cons_self a t), ?_⟩
    intro b hb
    rcases List.mem_cons.mp ((hmem b).mpr hb) with h | h
    · exact le_of_eq h
    · exact List.rel_of_sorted_cons hs b h

/-- Over a strictly descending tail, the list endpoint's backward count
is exactly the consecutive-run count starting one day below the head. -/
theorem descConsecCount_eq (rest : List Int) :
    ∀ m : Int, List.Sorted (· > ·) (m :: rest) →
      descConsecCount rest m = runLenFrom rest (m - 1) rest.length := by
  induction rest with
  | nil => intro m _; rfl
  | cons x rest2 ih =>
    intro m hsort
    have hx_lt : x < m := List.rel_of_sorted_cons hsort x (List.mem_cons_self x rest2)
    have hsort2 : List.Sorted (· > ·) (x :: rest2) := hsort.of_cons
    rw [descConsecCount]
    by_cases hcond : m - x = 1
    · have hx : x = m - 1 := by omega
      rw [if_pos hcond, List.length_cons, runLenFrom,
        if_pos (show m - 1 ∈ x :: rest2 from hx ▸ List.mem_cons_self x rest2)]
      congr 1
      rw [ih x hsort2]
      have he : m - 1 - 1 = x - 1 := by omega
      rw [he]
      refine runLenFrom_congr rest2.length (x - 1) ?_
      intro y hy
      rw [List.mem_cons]
      constructor
      · intro h
        exact Or.inr h
      · rintro (rfl | h)
        · exact absurd hy (by omega)
        · exact h
    · rw [if_neg hcond]
      have hnm : m - 1 ∉ x :: rest2 := by
        intro hc
        rcases List.mem_cons.mp hc with h | h
        · omega
        · have := List.rel_of_sorted_cons hsort2 _ h
          omega
      rw [List.length_cons, runLenFrom, if_neg hnm]

/-- Characterization of the list endpoint's current streak: positive
exactly when the most recent distinct completion day is within one day
of today, in which case it is the full consecutive run ending there. -/
theorem listCurrentStreak_spec (cs : List Int) (today m : Int) (hmax : cs.maximum = some m) :
    (today - m ≤ 1 → listCurrentStreak cs today = runLength cs m) ∧
    (1 < today - m → listCurrentStreak cs today = 0) := by
  obtain ⟨hmem, hub⟩ := List.maximum_eq_coe_iff.mp hmax
  have hrevmem : ∀ x : Int, x ∈ (sortAsc cs.dedup).reverse ↔ x ∈ cs := by
    intro x
    rw [List.mem_reverse, mem_sortAsc, List.mem_dedup]
  have hhead : ((sortAsc cs.dedup).reverse).head? = some m := by
    rw [head_maximum_of_sorted_ge (reverse_sortAsc_sorted_ge cs.dedup) hrevmem, hmax]
  have hsortrev := reverse_sortAsc_dedup_sorted_gt cs
  rcases hrev : (sortAsc cs.dedup).reverse with _ | ⟨m0, rest⟩
  · rw [hrev] at hhead
    exact absurd hhead (by simp)
  · rw [hrev, List.head?_cons] at hhead
    have hm0 : m0 = m := Option.some.inj hhead
    subst hm0
    rw [hrev] at hsortrev hrevmem
    have hgoal : listCurrentStreak cs today =
        if today - m0 ≤ 1 then 1 + descConsecCount rest m0 else 0 := by
      rw [listCurrentStreak, hrev]
    have hlen : rest.length + 1 = cs.dedup.length := by
      have hl := congrArg List.length hrev
      rw [List.length_reverse, length_sortAsc, List.length_cons] at hl
      omega
    constructor
    · intro hle
      rw [hgoal, if_pos hle, descConsecCount_eq rest m0 hsortrev, runLength, runLenFrom,
        if_pos hmem]
      congr 1
      have hcongr : runLenFrom rest (m0 - 1) rest.length =
          runLenFrom cs (m0 - 1) rest.length := by
        refine runLenFrom_congr rest.length (m0 - 1) ?_
        intro y hy
        constructor
        · intro h
          exact (hrevmem y).mp (List.mem_cons_of_mem m0 h)
        · intro h
          rcases List.mem_cons.mp ((hrevmem y).mpr h) with h2 | h2
          · exact absurd hy (by omega)
          · exact h2
      rw [hcongr]
      have hsub : cs.toFinset.filter (fun x => x ≤ m0 - 1) ⊆ cs.toFinset.erase m0 := by
        intro x hx
        rw [Finset.mem_filter] at hx
        rw [Finset.mem_erase]
        exact ⟨by omega, hx.1⟩
      have h1 : (cs.toFinset.filter (fun x => x ≤ m0 - 1)).card ≤ (cs.toFinset.erase m0).card :=
        Finset.card_le_card hsub
      have h2 : (cs.toFinset.erase m0).card = cs.toFinset.card - 1 :=
        Finset.card_erase_of_mem (List.mem_toFinset.mpr hmem)
      have h3 : cs.toFinset.card = cs.dedup.length := List.card_toFinset cs
      have h5 : cs.dedup.length ≤ cs.length := (List.dedup_sublist cs).length_le
      have hpos : 0 < cs.toFinset.card :=
        Finset.card_pos.mpr ⟨m0, List.mem_toFinset.mpr hmem⟩
      refine runLenFrom_fuel_eq cs (m0 - 1) (by omega) (by omega)
    · intro hgt
      rw [hgoal, if_neg (by omega)]

/-- Claim C7 (corrected): the two independently written current-streak
computations do differ on some input — the list endpoint applies the
day-based walk to every frequency, so a weekly habit completed this week
and last week gets 2 from the single-habit endpoint but 1 from the list
endpoint — but the one-day daily grace is granted by BOTH: on every
daily input whose completions all lie on or before today the two
computations agree. -/
theorem implementations_differ_not_in_grace (cs : List Int) (today m : Int)
    (hmax : cs.maximum = some m) (hle : m ≤ today) :
    calculateCurrentStreak cs "daily" today = listCurrentStreak cs today ∧
    calculateCurrentStreak [daysFromCivil 2025 6 11, daysFromCivil 2025 6 4] "weekly"
        (daysFromCivil 2025 6 11) ≠
      listCurrentStreak [daysFromCivil 2025 6 11, daysFromCivil 2025 6 4]
        (daysFromCivil 2025 6 11) := by
  refine ⟨?_, by decide⟩
  have hA := currentStreakDaily_spec cs today m hmax
  have hB := listCurrentStreak_spec cs today m hmax
  rcases lt_trichotomy m (today - 1) with h | h | h
  · rw [hA.2 (by omega), hB.2 (by omega)]
  · rw [hA.1 (Or.inr (by omega)), hB.1 (by omega)]
  · rw [hA.1 (Or.inl (by omega)), hB.1 (by omega)]

/-- Claim C7 counterexample: at the canonical grace input — a daily
habit with completions on days 98 and 99 and today = 100, so the most
recent completion is yesterday — the two implementations agree (both
give 2): it is not the case that one grants the one-day grace and the
other denies it. -/
theorem both_implementations_grant_grace :
    calculateCurrentStreak [98, 99] "daily" 100 = 2 ∧
    listCurrentStreak [98, 99] 100 = 2 ∧
    calculateCurrentStreak [98, 99] "daily" 100 = listCurrentStreak [98, 99] 100 :=
  ⟨by decide, by decide, by decide⟩

/-- Witness for the corrected C7 at the grace input (days 98 and 99,
today = 100). -/
theorem implementations_differ_not_in_grace_witness :
    calculateCurrentStreak [98, 99] "daily" 100 = listCurrentStreak [98, 99] 100 ∧
    calculateCurrentStreak [daysFromCivil 2025 6 11, daysFromCivil 2025 6 4] "weekly"
        (daysFromCivil 2025 6 11) ≠
      listCurrentStreak [daysFromCivil 2025 6 11, daysFromCivil 2025 6 4]
        (daysFromCivil 2025 6 11) :=
  implementations_differ_not_in_grace [98, 99] 100 99 (by decide) (by decide)

/-! ## Claim C10: year-relative week indexing and the year boundary -/

theorem approx_lo (y d : Int) (h : 146097 * y ≤ 400 * (d + 719468)) :
    daysFromCivil (y - 1) 1 1 ≤ d := by
  simp only [daysFromCivil]
  norm_num
  omega

theorem approx_hi (y d : Int) (h : 400 * (d + 719468) < 146097 * (y + 1)) :
    d < daysFromCivil (y + 2) 1 1 := by
  simp only [daysFromCivil]
  norm_num
  omega

/-- January 1 of the year of `d` is at most `d`, and January 1 of the
following year is beyond `d`. -/
theorem jan1_bracket (d : Int) :
    daysFromCivil (getFullYear d) 1 1 ≤ d ∧ d < daysFromCivil (getFullYear d + 1) 1 1 := by
  have h1 : 146097 * (400 * (d + 719468) / 146097) ≤ 400 * (d + 719468) := by omega
  have h2 : 400 * (d + 719468) < 146097 * (400 * (d + 719468) / 146097 + 1) := by omega
  simp only [getFullYear]
  split_ifs with ha hb
  · refine ⟨approx_lo _ d h1, ?_⟩
    rwa [sub_add_cancel]
  · exact ⟨le_of_not_lt ha, hb⟩
  · refine ⟨le_of_not_lt hb, ?_⟩
    have he : 400 * (d + 719468) / 146097 + 1 + 1 = 400 * (d + 719468) / 146097 + 2 := by ring
    rw [he]
    exact approx_hi _ d h2

/-- Every civil year spans at least 365 days. -/
theorem yearLen_ge (y : Int) : 365 ≤ daysFromCivil (y + 1) 1 1 - daysFromCivil y 1 1 := by
  simp only [daysFromCivil]
  norm_num
  omega

theorem getDayOfWeek_bounds (d : Int) : 0 ≤ getDayOfWeek d ∧ getDayOfWeek d < 7 := by
  unfold getDayOfWeek
  omega

/-- Near a year boundary the week index of the old-year day is at least
51 while the week index of the new-year day is at most 3. -/
theorem week_bounds_at_boundary {d1 d2 : Int} (h1 : d1 < d2) (h2 : d2 ≤ d1 + 13)
    (hy : getFullYear d2 = getFullYear d1 + 1) :
    51 ≤ getWeekNumber d1 ∧ 1 ≤ getWeekNumber d2 ∧ getWeekNumber d2 ≤ 3 := by
  have e1 : getWeekNumber d1 = (d1 - daysFromCivil (getFullYear d1) 1 1 +
      getDayOfWeek (daysFromCivil (getFullYear d1) 1 1) + 1 + 6) / 7 := rfl
  have e2 : getWeekNumber d2 = (d2 - daysFromCivil (getFullYear d1 + 1) 1 1 +
      getDayOfWeek (daysFromCivil (getFullYear d1 + 1) 1 1) + 1 + 6) / 7 := by
    rw [← hy]
    rfl
  obtain ⟨hb1l, hb1r⟩ := jan1_bracket d1
  obtain ⟨hb2l, hb2r⟩ := jan1_bracket d2
  rw [hy] at hb2l hb2r
  have hyl := yearLen_ge (getFullYear d1)
  obtain ⟨hv1, hv2⟩ := getDayOfWeek_bounds (daysFromCivil (getFullYear d1) 1 1)
  obtain ⟨hv3, hv4⟩ := getDayOfWeek_bounds (daysFromCivil (getFullYear d1 + 1) 1 1)
  rw [e1, e2]
  refine ⟨by omega, by omega, by omega⟩

theorem sortAsc_pair_le {a b : Int} (h : a ≤ b) : sortAsc [a, b] = [a, b] := by
  simp [sortAsc, List.insertionSort, List.orderedInsert, h]

theorem sortAsc_pair_gt {a b : Int} (h : ¬ a ≤ b) : sortAsc [a, b] = [b, a] := by
  simp [sortAsc, List.insertionSort, List.orderedInsert, h]

/-- Claim C10: the week indices used by the weekly and specific-weekday
streak math are year-relative (computed from January 1 of the
completion's own year), so two completion days in consecutive calendar
weeks that lie in different years are never counted as consecutive
(`week(d2) ≠ week(d1) + 1`), and the longest weekly or specific-weekday
streak over such a pair is 1, not 2: the streak resets at the new year. -/
theorem year_boundary_resets_longest_streak (d1 d2 : Int) (h1 : d1 < d2) (h2 : d2 ≤ d1 + 13)
    (hy : getFullYear d2 = getFullYear d1 + 1) :
    getWeekNumber d2 ≠ getWeekNumber d1 + 1 ∧
    calculateLongestStreak [d1, d2] "weekly" = 1 ∧
    (∀ dayName targetDay, dayMap dayName = some targetDay →
      getDayOfWeek d1 = targetDay → getDayOfWeek d2 = targetDay →
      calculateLongestStreak [d1, d2] dayName = 1) := by
  obtain ⟨hw1, hw2a, hw2b⟩ := week_bounds_at_boundary h1 h2 hy
  have hscrut : sortAsc ((List.map getWeekNumber [d1, d2]).dedup) =
      [getWeekNumber d2, getWeekNumber d1] := by
    have hm : List.map getWeekNumber [d1, d2] = [getWeekNumber d1, getWeekNumber d2] := by
      simp
    have hnm : getWeekNumber d1 ∉ [getWeekNumber d2] := by
      simp only [List.mem_singleton]
      omega
    rw [hm, List.dedup_cons_of_not_mem hnm]
    have hd2 : ([getWeekNumber d2] : List Int).dedup = [getWeekNumber d2] := by simp
    rw [hd2]
    exact sortAsc_pair_gt (by omega)
  have hweekly : calculateLongestWeeklyStreak [d1, d2] = 1 := by
    simp only [calculateLongestWeeklyStreak, hscrut]
    rw [longestWeekScan, if_neg (by omega : ¬ getWeekNumber d1 = getWeekNumber d2 + 1),
      longestWeekScan]
    exact max_self 1
  refine ⟨by omega, ?_, ?_⟩
  · have hstep : calculateLongestStreak [d1, d2] "weekly" =
        calculateLongestWeeklyStreak (sortAsc [d1, d2]) := by
      simp [calculateLongestStreak]
    rw [hstep, sortAsc_pair_le (le_of_lt h1), hweekly]
  · intro dayName targetDay hdm hd1 hd2
    obtain ⟨hnd, hnw⟩ := dayMap_ne_reserved hdm
    have hstep : calculateLongestStreak [d1, d2] dayName =
        calculateLongestSpecificDayStreak (sortAsc [d1, d2]) dayName := by
      simp [calculateLongestStreak, hnd, hnw]
    rw [hstep, sortAsc_pair_le (le_of_lt h1)]
    have hfil : ([d1, d2] : List Int).filter (fun c => getDayOfWeek c = targetDay) = [d1, d2] := by
      simp [List.filter, hd1, hd2]
    simp only [calculateLongestSpecificDayStreak, hdm, hfil, sortAsc_pair_le (le_of_lt h1)]
    simp only [List.map_cons, List.map_nil]
    rw [longestWeekScan, if_neg (by omega : ¬ getWeekNumber d2 = getWeekNumber d1 + 1),
      longestWeekScan]
    exact max_self 1

/-- Witness for C10: 2024-12-25 and 2025-01-01, one week apart across
the 2024/2025 boundary (both Wednesdays, weekday index 3). -/
theorem year_boundary_resets_longest_streak_witness :
    getWeekNumber (daysFromCivil 2025 1 1) ≠ getWeekNumber (daysFromCivil 2024 12 25) + 1 ∧
    calculateLongestStreak [daysFromCivil 2024 12 25, daysFromCivil 2025 1 1] "weekly" = 1 ∧
    calculateLongestStreak [daysFromCivil 2024 12 25, daysFromCivil 2025 1 1] "wednesday" = 1 := by
  have h := year_boundary_resets_longest_streak (daysFromCivil 2024 12 25)
    (daysFromCivil 2025 1 1) (by decide) (by decide) (by decide)
  exact ⟨h.1, h.2.1, h.2.2 "wednesday" 3 (by decide) (by decide) (by decide)⟩
